import Mathlib

/-!
Shallow embedding of the MeshChat synchronization engine
(`meshchat/meshchat.py`): the SQLite-backed stores for messages, users,
files and nodes, the feed merge functions, the retention pruner, the
version oracle, the node discovery/probe cycle and the checksum-gated
feed fetch.  Python/SQLite conventions kept by the model:

* a table is a list of rows in insertion order; `REPLACE INTO` deletes the
  rows conflicting on the unique key and appends the new row;
* `cursor.executemany` executes row by row and stops at the first failing
  row; an uncaught exception propagates, in which case `db.commit()` is
  never reached and the open transaction's writes are discarded, so the
  committed store is unchanged (the model tracks the committed store);
* a SQLite column with INTEGER affinity stores integer-looking text as an
  integer and other text verbatim (`SqlVal`); REAL values are not needed
  by any feed and are not modelled;
* `hashlib.md5().hexdigest()` is an abstract parameter of the fetch
  pipeline: nothing proved here depends on the actual digest function.
-/

deriving instance DecidableEq for Except

/-- Python exceptions that the engine code can raise while merging or
polling: `ValueError` from `int(...)`, and `sqlite3.ProgrammingError`
from a parameter-count mismatch in `execute`/`executemany`. -/
inductive PyErr where
  | valueError
  | programmingError
deriving Repr, DecidableEq

/-- Value stored in a SQLite column with INTEGER affinity: integer-looking
text arrives as an integer, any other text stays text. -/
inductive SqlVal where
  | int (n : Int)
  | text (s : String)
deriving Repr, DecidableEq

/-- SQLite comparison: every integer sorts below every text value,
integers compare numerically, text compares by the binary collation. -/
def SqlVal.leB : SqlVal → SqlVal → Bool
  | .int a, .int b => decide (a ≤ b)
  | .int _, .text _ => true
  | .text _, .int _ => false
  | .text a, .text b => decide (a ≤ b)

/-- Numeric value of one hex digit, as accepted by `int(_, 16)`. -/
def hexVal (c : Char) : Option Nat :=
  if '0' ≤ c ∧ c ≤ '9' then some (c.toNat - '0'.toNat)
  else if 'a' ≤ c ∧ c ≤ 'f' then some (c.toNat - 'a'.toNat + 10)
  else if 'A' ≤ c ∧ c ≤ 'F' then some (c.toNat - 'A'.toNat + 10)
  else none

/-- Accumulating hex parse over the characters of the string. -/
def parseHexCore : List Char → Nat → Option Nat
  | [], acc => some acc
  | c :: rest, acc =>
    match hexVal c with
    | none => none
    | some d => parseHexCore rest (acc * 16 + d)

/-- Python `int(s, 16)` restricted to plain strings of hex digits (the
feed ids are 8 hex digits); anything else raises `ValueError` (`none`). -/
def parseHexNat (s : String) : Option Nat :=
  match s.data with
  | [] => none
  | cs => parseHexCore cs 0

/-- Numeric value of one decimal digit. -/
def decVal (c : Char) : Option Nat :=
  if '0' ≤ c ∧ c ≤ '9' then some (c.toNat - '0'.toNat) else none

/-- Accumulating decimal parse over the characters of the string. -/
def parseDecCore : List Char → Nat → Option Nat
  | [], acc => some acc
  | c :: rest, acc =>
    match decVal c with
    | none => none
    | some d => parseDecCore rest (acc * 10 + d)

/-- Python `int(s)` / SQLite integer literal: an optional minus sign and
decimal digits; anything else is `none` (a `ValueError` in Python, or a
value kept as text by SQLite's affinity conversion). -/
def parseDecInt (s : String) : Option Int :=
  match s.data with
  | [] => none
  | '-' :: rest =>
    match rest with
    | [] => none
    | _ => (parseDecCore rest 0).map (fun n => -(n : Int))
  | cs => (parseDecCore cs 0).map (fun n => (n : Int))

/-- INTEGER-affinity conversion applied by SQLite when a Python string is
bound to an INTEGER column such as `messages.epoch`. -/
def sqlIntAffinity (s : String) : SqlVal :=
  match parseDecInt s with
  | some n => .int n
  | none => .text s

/-- Split a character list at every occurrence of the separator; always
returns at least one (possibly empty) chunk, like Python `str.split`. -/
def splitOnChar (sep : Char) : List Char → List (List Char)
  | [] => [[]]
  | c :: rest =>
    if c = sep then [] :: splitOnChar sep rest
    else
      match splitOnChar sep rest with
      | [] => [[c]]
      | chunk :: chunks => (c :: chunk) :: chunks

/-- Python `line.split('\t')`. -/
def splitTab (s : String) : List String :=
  (splitOnChar '\t' s.data).map (fun cs => String.mk cs)

/-- Python `str.splitlines()` for newline-separated feed bodies: split on
newline and drop the trailing empty chunk a terminating newline leaves. -/
def pySplitlines (s : String) : List String :=
  let parts := splitOnChar '\n' s.data
  let parts := if parts.getLast? = some [] then parts.dropLast else parts
  parts.map (fun cs => String.mk cs)

/-- Row of the `messages` table: `id INTEGER UNIQUE, epoch INTEGER,
message, call_sign, node, platform, channel TEXT`. -/
structure Message where
  id : Nat
  epoch : SqlVal
  message : String
  call_sign : String
  node : String
  platform : String
  channel : String
deriving Repr, DecidableEq

/-- Ids of the rows of a message store, in row order. -/
def msgIds (s : List Message) : List Nat := s.map Message.id

/-- Boolean form of "`a` sorts at or before `b`" under
`ORDER BY epoch DESC, id DESC`. -/
def msgBefore (a b : Message) : Bool :=
  if a.epoch = b.epoch then decide (b.id ≤ a.id) else SqlVal.leB b.epoch a.epoch

/-- The sort relation of `ORDER BY epoch DESC, id DESC` as a proposition. -/
def msgR (a b : Message) : Prop := msgBefore a b = true

instance : DecidableRel msgR := fun _ _ => inferInstanceAs (Decidable (_ = true))

/-- Result list of `SELECT id FROM messages ORDER BY epoch DESC, id DESC`
(the rows, before projecting the ids). -/
def sortDescMessages (s : List Message) : List Message :=
  List.insertionSort msgR s

/-- `prune_messages`: count the rows, and when the count exceeds the
configured maximum by `over`, delete the `over` rows whose ids head the
`ORDER BY epoch DESC, id DESC` ordering. -/
def prune_messages (maxM : Nat) (s : List Message) : List Message :=
  let over : Int := (s.length : Int) - (maxM : Int)
  if over > 0 then
    let topIds := ((sortDescMessages s).take over.toNat).map Message.id
    s.filter (fun m => decide (m.id ∉ topIds))
  else s

/-- Parse of one feed line inside the comprehension of `update_messages`:
`int(line.split('\t')[0], 16)` paired with `line.split('\t')[1:7]`. -/
def parseMsgLine (l : String) : Except PyErr (Nat × List String) :=
  let fs := splitTab l
  match parseHexNat (fs.headD "") with
  | none => .error .valueError
  | some i => .ok (i, (fs.drop 1).take 6)

/-- The whole list comprehension of `update_messages`: every line is
parsed before any database work happens, and the first bad hex id raises
`ValueError`. -/
def parseMsgLines : List String → Except PyErr (List (Nat × List String))
  | [] => .ok []
  | l :: rest =>
    match parseMsgLine l with
    | .error e => .error e
    | .ok r =>
      match parseMsgLines rest with
      | .error e => .error e
      | .ok rs => .ok (r :: rs)

/-- `executemany('INSERT INTO messages ...')` wrapped in
`except sqlite3.IntegrityError: pass`: rows are inserted one at a time; a
row with fewer than the 7 required parameters raises
`ProgrammingError` (uncaught), and a duplicate id raises
`IntegrityError`, which stops the batch but is swallowed by the caller. -/
def execInsertMessages : List Message → List (Nat × List String) → Except PyErr (List Message)
  | s, [] => .ok s
  | s, (i, fs) :: rest =>
    match fs with
    | [e, m, c, n, p, ch] =>
      if ∃ x ∈ s, x.id = i then .ok s
      else execInsertMessages (s ++ [⟨i, sqlIntAffinity e, m, c, n, p, ch⟩]) rest
    | _ => .error .programmingError

/-- `update_messages(feed)`: parse all lines, insert until the batch ends
or a duplicate id stops it, commit, then prune.  On an uncaught exception
the commit is never reached and the committed store is unchanged. -/
def update_messages (maxM : Nat) (feed : String) (s : List Message) : Except PyErr (List Message) :=
  match parseMsgLines (pySplitlines feed) with
  | .error e => .error e
  | .ok rows =>
    match execInsertMessages s rows with
    | .error e => .error e
    | .ok s₂ => .ok (prune_messages maxM s₂)

/-- `get_message_version`: `SELECT sum(id) FROM messages`, with the NULL
returned on an empty table mapped to 0. -/
def get_message_version (s : List Message) : Int :=
  match s with
  | [] => 0
  | _ => (s.map (fun m => (m.id : Int))).sum

/-- Row of the `users` table: `id, call_sign TEXT, epoch INTEGER, node,
platform TEXT, UNIQUE(id, call_sign, node)`.  No claim orders users by
epoch, so the raw bound text is kept for every column. -/
structure UserRow where
  id : String
  call_sign : String
  epoch : String
  node : String
  platform : String
deriving Repr, DecidableEq

/-- Composite unique key of the `users` table. -/
def userKey (u : UserRow) : String × String × String :=
  (u.id, u.call_sign, u.node)

/-- `REPLACE INTO users`: delete the rows conflicting on
`UNIQUE(id, call_sign, node)` and insert the new row. -/
def replaceUser (s : List UserRow) (u : UserRow) : List UserRow :=
  s.filter (fun v => decide (userKey v ≠ userKey u)) ++ [u]

/-- `executemany('REPLACE INTO users (call_sign, id, node, epoch,
platform) VALUES (?, ?, ?, ?, ?)', rows)`: each line must supply exactly
5 fields or the statement raises `ProgrammingError`. -/
def execReplaceUsers : List UserRow → List (List String) → Except PyErr (List UserRow)
  | s, [] => .ok s
  | s, fs :: rest =>
    match fs with
    | [cs, i, nd, e, p] => execReplaceUsers (replaceUser s ⟨i, cs, e, nd, p⟩) rest
    | _ => .error .programmingError

/-- `update_users(feed)`: split into lines and tab-separated fields, then
upsert every row; commit only after the whole batch succeeded. -/
def update_users (feed : String) (s : List UserRow) : Except PyErr (List UserRow) :=
  execReplaceUsers s ((pySplitlines feed).map splitTab)

/-- Row of the `files` table: `file, node TEXT, size, epoch INTEGER,
local INTEGER, platform TEXT, UNIQUE(file, node)`. -/
structure FileRow where
  file : String
  epoch : String
  size : String
  node : String
  l_flag : Int
  platform : String
deriving Repr, DecidableEq

/-- Composite unique key of the `files` table. -/
def fileKey (f : FileRow) : String × String :=
  (f.file, f.node)

/-- `REPLACE INTO files`: delete the rows conflicting on
`UNIQUE(file, node)` and insert the new row. -/
def replaceFile (s : List FileRow) (f : FileRow) : List FileRow :=
  s.filter (fun g => decide (fileKey g ≠ fileKey f)) ++ [f]

/-- `executemany('REPLACE INTO files (file, node, size, epoch, platform,
local) VALUES (?, ?, ?, ?, ?, 0)', rows)`: each line must supply exactly
5 fields (the `local` column is the constant 0, not a feed field). -/
def execReplaceFiles : List FileRow → List (List String) → Except PyErr (List FileRow)
  | s, [] => .ok s
  | s, fs :: rest =>
    match fs with
    | [fl, nd, sz, e, p] => execReplaceFiles (replaceFile s ⟨fl, e, sz, nd, 0, p⟩) rest
    | _ => .error .programmingError

/-- `update_files(feed)`: split into lines and fields, upsert every row. -/
def update_files (feed : String) (s : List FileRow) : Except PyErr (List FileRow) :=
  execReplaceFiles s ((pySplitlines feed).map splitTab)

/-- Row of the `nodes` table: `name TEXT UNIQUE, port, messages_version,
alive, last_polled, non_mesh INTEGER`; columns a REPLACE does not name
become NULL (`none`). -/
structure NodeRow where
  name : String
  port : Option Int
  messages_version : Option Int
  alive : Option Int
  last_polled : Option String
  non_mesh : Option Int
deriving Repr, DecidableEq

/-- `REPLACE INTO nodes (name, port, alive) VALUES (?, ?, 0)`: the
conflicting row (same unique name) is deleted and a fresh row holding
only name, port and alive=0 is inserted. -/
def replaceNode (ns : List NodeRow) (nm : String) (pt : Int) : List NodeRow :=
  ns.filter (fun n => decide (n.name ≠ nm)) ++ [⟨nm, some pt, none, some 0, none, none⟩]

/-- Discovery upsert phase of `refresh_node_list`: the `executemany` of
the REPLACE over every discovered (hostname, port) pair. -/
def replaceNodes (ns : List NodeRow) (ds : List (String × Int)) : List NodeRow :=
  ds.foldl (fun acc d => replaceNode acc d.1 d.2) ns

/-- `get_node_list(alive, non_mesh)`: `SELECT * FROM nodes` with
`WHERE alive = 1` appended when `alive` is True; the `non_mesh` argument
is accepted and ignored by the query builder. -/
def get_node_list (alive nonMesh : Bool) (ns : List NodeRow) : List NodeRow :=
  if alive then ns.filter (fun n => decide (n.alive = some 1)) else ns

/-- Outcome of one `requests.get` of a peer's `messages_version` feed. -/
inductive ProbeOutcome where
  | connError
  | readTimeout
  | got (status : Nat) (body : String)
deriving Repr, DecidableEq

/-- Effect of one loop iteration of `refresh_node_list` on the pending
`nodes` table.  Connection errors and timeouts are caught and skipped.
On a non-200 status the code runs `cur.execute` with one `?` placeholder
but a two-element parameter tuple `(int(text), name)`, so after `int`
parses the body the statement raises `ProgrammingError`; on a 200 status
`UPDATE nodes SET messages_version = ?, alive = 1 WHERE name = ?` records
the parsed body. -/
def probe_node (ns : List NodeRow) (nm : String) (out : ProbeOutcome) : Except PyErr (List NodeRow) :=
  match out with
  | .connError => .ok ns
  | .readTimeout => .ok ns
  | .got status body =>
    if status ≠ 200 then
      match parseDecInt body with
      | none => .error .valueError
      | some _ => .error .programmingError
    else
      match parseDecInt body with
      | none => .error .valueError
      | some v =>
        .ok (ns.map (fun n =>
          if n.name = nm then { n with messages_version := some v, alive := some 1 } else n))

/-- Probe loop of `refresh_node_list` over the discovered peers. -/
def probeAll (ns : List NodeRow) : List (String × Int × ProbeOutcome) → Except PyErr (List NodeRow)
  | [] => .ok ns
  | d :: rest =>
    match probe_node ns d.1 d.2.2 with
    | .ok ns₂ => probeAll ns₂ rest
    | .error e => .error e

/-- `refresh_node_list`, returning the committed `nodes` table: the
discovery REPLACE phase and the probe loop run in one transaction whose
single `db.commit()` sits at the end, so an uncaught exception leaves the
committed table untouched. -/
def refresh_node_list (ns : List NodeRow) (ds : List (String × Int × ProbeOutcome)) : List NodeRow :=
  let pending := replaceNodes ns (ds.map (fun d => (d.1, d.2.1)))
  match probeAll pending ds with
  | .ok ns₂ => ns₂
  | .error _ => ns

/-- HTTP response as `fetch_raw_list` sees it: status code, the optional
`Content-MD5` header, and the body. -/
structure FetchResult where
  status : Nat
  contentMD5 : Option String
  body : String
deriving Repr, DecidableEq

/-- Outcome of the `requests.get` inside `fetch_raw_list`; connection
errors are caught and end the call. -/
inductive FetchOutcome where
  | connError
  | got (r : FetchResult)
deriving Repr, DecidableEq

/-- `check_message_checksum`: False when the `Content-MD5` header is
absent or differs from the hex MD5 of the body, True otherwise.  The
digest function is an abstract parameter of the model. -/
def check_message_checksum (md5hex : String → String) (r : FetchResult) : Bool :=
  match r.contentMD5 with
  | none => false
  | some h => decide (md5hex r.body = h)

/-- The four engine tables, the shared state a fetch can modify. -/
structure EngineDb where
  nodes : List NodeRow
  messages : List Message
  users : List UserRow
  files : List FileRow
deriving Repr, DecidableEq

/-- `fetch_raw_list(node, action, update_function)`: a connection error
returns, a 404 returns ("non mesh node", with no database write), and the
merge callback runs only when the checksum verifies and the body is
non-empty. -/
def fetch_raw_list (md5hex : String → String) (out : FetchOutcome)
    (updateFn : String → EngineDb → Except PyErr EngineDb) (db : EngineDb) :
    Except PyErr EngineDb :=
  match out with
  | .connError => .ok db
  | .got r =>
    if r.status = 404 then .ok db
    else if check_message_checksum md5hex r ∧ r.body.length > 0 then updateFn r.body db
    else .ok db

/-- Message built from a parsed `update_messages` row; meaningful when
the row carries its 6 trailing fields (the arity the INSERT requires). -/
def rowToMsg (r : Nat × List String) : Message :=
  match r with
  | (i, [e, m, c, n, p, ch]) => ⟨i, sqlIntAffinity e, m, c, n, p, ch⟩
  | (i, _) => ⟨i, .text "", "", "", "", "", ""⟩

/-- Insertion phase of a message batch whose rows all have the required
arity: insert row after row, stopping silently at the first id already
present (the caught `IntegrityError`). -/
def insertLoop (s : List Message) : List Message → List Message
  | [] => s
  | m :: rest =>
    if ∃ x ∈ s, x.id = m.id then s
    else insertLoop (s ++ [m]) rest

/-- The rows a message batch actually inserts, as a function of the set
of ids already seen: the longest initial run of rows with pairwise-fresh
ids, cut at the first id hitting the seen set. -/
def insertedRun (seen : List Nat) : List Message → List Message
  | [] => []
  | m :: rest =>
    if m.id ∈ seen then []
    else m :: insertedRun (m.id :: seen) rest

/-- A feed line `update_messages` accepts: a hex-parsable id field and at
least 7 tab-separated fields (fields beyond the 7th are discarded by the
slice `[1:7]`). -/
def MsgLineOk (l : String) : Prop :=
  (parseHexNat ((splitTab l).headD "")).isSome ∧ 7 ≤ (splitTab l).length

instance (l : String) : Decidable (MsgLineOk l) := by
  unfold MsgLineOk; infer_instance

/-- A messages feed whose every line `update_messages` accepts. -/
def MsgFeedOk (feed : String) : Prop :=
  ∀ l ∈ pySplitlines feed, MsgLineOk l

instance (feed : String) : Decidable (MsgFeedOk feed) :=
  List.decidableBAll _ _

/-- Total reading of one accepted feed line as a message row: the parsed
hex id paired with the field slice `[1:7]`, assembled like the INSERT. -/
def lineToMsg (l : String) : Message :=
  rowToMsg ((parseHexNat ((splitTab l).headD "")).getD 0, ((splitTab l).drop 1).take 6)

/-- Messages carried by an accepted feed, line by line. -/
def feedMsgs (feed : String) : List Message :=
  (pySplitlines feed).map lineToMsg

/-- Serialization of one user row in the `users_raw` feed order
`callSign\tid\tnode\tepoch\tplatform`. -/
def userLine (u : UserRow) : String :=
  u.call_sign ++ "\t" ++ u.id ++ "\t" ++ u.node ++ "\t" ++ u.epoch ++ "\t" ++ u.platform

/-- Field text that survives the feed round trip: free of the tab and
newline separators. -/
def StrClean (s : String) : Prop :=
  '\t' ∉ s.data ∧ '\n' ∉ s.data

instance (s : String) : Decidable (StrClean s) := by
  unfold StrClean; infer_instance

/-- User row whose five fields are separator-free. -/
def UserRowClean (u : UserRow) : Prop :=
  StrClean u.call_sign ∧ StrClean u.id ∧ StrClean u.node ∧ StrClean u.epoch ∧ StrClean u.platform

instance (u : UserRow) : Decidable (UserRowClean u) := by
  unfold UserRowClean; infer_instance

/-- User row assembled by the REPLACE from one 5-field feed line
`callSign\tid\tnode\tepoch\tplatform`; meaningful at that arity. -/
def userRowOfFields (fs : List String) : UserRow :=
  match fs with
  | [cs, i, nd, e, p] => ⟨i, cs, e, nd, p⟩
  | _ => ⟨"", "", "", "", ""⟩

/-- File row assembled by the REPLACE from one 5-field feed line
`file\tnode\tsize\tepoch\tplatform` (the `local` column is 0). -/
def fileRowOfFields (fs : List String) : FileRow :=
  match fs with
  | [fl, nd, sz, e, p] => ⟨fl, e, sz, nd, 0, p⟩
  | _ => ⟨"", "", "", "", 0, ""⟩

/-- Observable committed table after a merge call: an uncaught exception
propagates before `db.commit()`, leaving the previously committed rows. -/
def commitResult {α : Type} (prior : α) : Except PyErr α → α
  | .ok v => v
  | .error _ => prior

/-- Scenario row: the message carried by the spec's scenario-A feed line. -/
def msgA : Message := ⟨42, .int 1700000000, "hello", "KB1XYZ", "nodeA", "pi", "general"⟩

/-- The spec's scenario-A feed line. -/
def scenLineA : String := "0000002a\t1700000000\thello\tKB1XYZ\tnodeA\tpi\tgeneral"

/-- Fixture: stored message with id 7 and epoch 500. -/
def cexMsg7 : Message := ⟨7, .int 500, "a", "a", "a", "a", "a"⟩

/-- Fixture: stored message with id 2 and epoch 100. -/
def cexMsg2 : Message := ⟨2, .int 100, "b", "b", "b", "b", "b"⟩

/-- Fixture: message carried by the feed line of `cexFeed7`. -/
def cexMsg7b : Message := ⟨7, .int 0, "a", "a", "a", "a", "a"⟩

/-- Fixture feed: a single line with id 7 and epoch 0. -/
def cexFeed7 : String := "00000007\t0\ta\ta\ta\ta\ta"

/-- Fixture feed: the scenario-A line (a duplicate of `msgA`) followed by a
line with the fresh id 7. -/
def cexFeedDup : String :=
  "0000002a\t1700000000\thello\tKB1XYZ\tnodeA\tpi\tgeneral\n00000007\t1700000001\thi\tK2ABC\tnodeB\tpi\tgeneral"

/-- Fixture feed: the scenario-A line with an eighth field appended. -/
def cexLine8 : String := "0000002a\t1700000000\thello\tKB1XYZ\tnodeA\tpi\tgeneral\tEXTRA"

/-- Fixture registry: one discovered peer, never probed. -/
def cexNode : NodeRow := ⟨"nodeA", some 8080, none, none, none, none⟩

/-- Fixture engine state: one alive peer and empty tables. -/
def cexDb : EngineDb :=
  ⟨[⟨"nodeA", some 8080, some 3, some 1, none, none⟩], [], [], []⟩

/-! Order lemmas for the `ORDER BY epoch DESC, id DESC` relation. -/

theorem SqlVal.leB_total : ∀ (a b : SqlVal), a.leB b = true ∨ b.leB a = true
  | .int a, .int b => by
    simp only [SqlVal.leB, decide_eq_true_eq]
    exact le_total a b
  | .int _, .text _ => Or.inl rfl
  | .text _, .int _ => Or.inr rfl
  | .text a, .text b => by
    simp only [SqlVal.leB, decide_eq_true_eq]
    exact le_total a b

theorem SqlVal.leB_trans {a b c : SqlVal} (h₁ : a.leB b = true) (h₂ : b.leB c = true) :
    a.leB c = true := by
  cases a <;> cases b <;> cases c <;>
    simp only [SqlVal.leB, decide_eq_true_eq, Bool.false_eq_true] at h₁ h₂ ⊢ <;>
    first
      | rfl
      | exact le_trans h₁ h₂
      | exact h₁.elim
      | exact h₂.elim

theorem SqlVal.leB_antisymm {a b : SqlVal} (h₁ : a.leB b = true) (h₂ : b.leB a = true) :
    a = b := by
  cases a <;> cases b <;>
    simp only [SqlVal.leB, decide_eq_true_eq, Bool.false_eq_true, SqlVal.int.injEq,
      SqlVal.text.injEq] at h₁ h₂ ⊢ <;>
    first
      | exact le_antisymm h₁ h₂
      | exact h₁.elim
      | exact h₂.elim

instance : IsTotal Message msgR := by
  constructor
  intro a b
  by_cases h : a.epoch = b.epoch
  · simp [msgR, msgBefore, h]
    omega
  · have h' : ¬ b.epoch = a.epoch := fun hh => h hh.symm
    simp only [msgR, msgBefore, if_neg h, if_neg h']
    exact SqlVal.leB_total b.epoch a.epoch

instance : IsTrans Message msgR := by
  constructor
  intro a b c hab hbc
  by_cases hab' : a.epoch = b.epoch <;> by_cases hbc' : b.epoch = c.epoch
  · simp_all [msgR, msgBefore]
    omega
  · have hac : ¬ a.epoch = c.epoch := by rw [hab']; exact hbc'
    simp_all [msgR, msgBefore]
  · have hac : ¬ a.epoch = c.epoch := by rw [← hbc']; exact hab'
    simp_all [msgR, msgBefore]
  · simp only [msgR, msgBefore, if_neg hab', if_neg hbc'] at hab hbc
    by_cases hac : a.epoch = c.epoch
    · exfalso
      rw [hac] at hab
      exact hbc' (SqlVal.leB_antisymm hbc hab).symm
    · simp only [msgR, msgBefore, if_neg hac]
      exact SqlVal.leB_trans hbc hab

theorem msgR_key_antisymm {a b : Message} (h₁ : msgR a b) (h₂ : msgR b a) :
    a.epoch = b.epoch ∧ a.id = b.id := by
  by_cases h : a.epoch = b.epoch
  · simp_all [msgR, msgBefore]
    omega
  · have h' : ¬ b.epoch = a.epoch := fun hh => h hh.symm
    simp only [msgR, msgBefore, if_neg h, if_neg h'] at h₁ h₂
    exact absurd (SqlVal.leB_antisymm h₂ h₁) h

theorem msgR_refl (a : Message) : msgR a a := by
  simp [msgR, msgBefore]

/-! Generic facts about sorted permutations, used to pin down which rows
the pruner deletes. -/

theorem sorted_take_append_perm {l A B : List Message}
    (hs : List.Sorted msgR l) (hp : l.Perm (A ++ B))
    (hAB : ∀ a ∈ A, ∀ b ∈ B, msgR a b ∧ ¬ msgR b a) :
    (l.take A.length).Perm A ∧ (l.drop A.length).Perm B := by
  induction l generalizing A B with
  | nil =>
    have hnil : A ++ B = [] := hp.symm.eq_nil
    rcases List.append_eq_nil.mp hnil with ⟨hA, hB⟩
    subst hA; subst hB
    simp
  | cons x l ih =>
    have hx : x ∈ A ++ B := hp.mem_iff.mp (List.mem_cons_self x l)
    rcases List.mem_append.mp hx with hxA | hxB
    · have hA : A.Perm (x :: A.erase x) := List.perm_cons_erase hxA
      have hl : l.Perm (A.erase x ++ B) :=
        (hp.trans (hA.append_right B)).cons_inv
      have hAB' : ∀ a ∈ A.erase x, ∀ b ∈ B, msgR a b ∧ ¬ msgR b a := fun a ha b hb =>
        hAB a (List.mem_of_mem_erase ha) b hb
      obtain ⟨ht, hd⟩ := ih hs.of_cons hl hAB'
      have hlen : A.length = (A.erase x).length + 1 := by
        rw [List.length_erase_of_mem hxA]
        have hpos : 0 < A.length := List.length_pos_of_mem hxA
        omega
      constructor
      · rw [hlen]
        simpa using (ht.cons x).trans hA.symm
      · rw [hlen]
        simpa using hd
    · have hAnil : A = [] := by
        cases A with
        | nil => rfl
        | cons a A' =>
          exfalso
          have ha : a ∈ a :: A' := List.mem_cons_self a A'
          have haxl : a ∈ x :: l := hp.mem_iff.mpr (List.mem_append.mpr (Or.inl ha))
          rcases List.mem_cons.mp haxl with rfl | hal
          · exact (hAB a ha a hxB).2 (msgR_refl a)
          · exact (hAB a ha x hxB).2 (List.rel_of_sorted_cons hs a hal)
      subst hAnil
      simpa using hp

/-! Characterization of the pruner. -/

theorem sortDescMessages_perm (s : List Message) : (sortDescMessages s).Perm s :=
  List.perm_insertionSort msgR s

theorem sortDescMessages_sorted (s : List Message) : List.Sorted msgR (sortDescMessages s) :=
  List.sorted_insertionSort msgR s

theorem prune_messages_of_le {maxM : Nat} {s : List Message} (h : s.length ≤ maxM) :
    prune_messages maxM s = s := by
  unfold prune_messages
  have hneg : ¬ ((s.length : Int) - (maxM : Int) > 0) := by omega
  simp [hneg]

theorem prune_messages_filter_form (maxM : Nat) (s : List Message) :
    prune_messages maxM s =
      s.filter (fun m =>
        decide (m.id ∉ ((sortDescMessages s).take (s.length - maxM)).map Message.id)) := by
  unfold prune_messages
  have htn : ((s.length : Int) - (maxM : Int)).toNat = s.length - maxM := by omega
  by_cases hpos : ((s.length : Int) - (maxM : Int)) > 0
  · simp only [if_pos hpos, htn]
  · have hz : s.length - maxM = 0 := by omega
    rw [if_neg hpos, hz]
    simp

theorem prune_messages_perm_drop {maxM : Nat} {s : List Message} (h : (msgIds s).Nodup) :
    (prune_messages maxM s).Perm ((sortDescMessages s).drop (s.length - maxM)) := by
  rw [prune_messages_filter_form maxM s]
  set sorted := sortDescMessages s with hsortdef
  set k := s.length - maxM with hk
  set tIds := (sorted.take k).map Message.id with htIds
  have hperm : sorted.Perm s := sortDescMessages_perm s
  have hnodup : (msgIds sorted).Nodup := (hperm.map Message.id).nodup_iff.mpr h
  have hsplit : sorted = sorted.take k ++ sorted.drop k := (List.take_append_drop k sorted).symm
  have hids : (tIds ++ (sorted.drop k).map Message.id).Nodup := by
    rw [htIds, ← List.map_append, ← hsplit]
    exact hnodup
  have hdisj : List.Disjoint tIds ((sorted.drop k).map Message.id) :=
    List.disjoint_of_nodup_append hids
  have hfperm := hperm.symm.filter (fun m => decide (m.id ∉ tIds))
  refine hfperm.trans ?_
  have htake : (sorted.take k).filter (fun m => decide (m.id ∉ tIds)) = [] := by
    rw [List.filter_eq_nil_iff]
    intro m hm
    simp only [decide_eq_true_eq, not_not]
    rw [htIds]
    exact List.mem_map_of_mem Message.id hm
  have hdrop : (sorted.drop k).filter (fun m => decide (m.id ∉ tIds)) = sorted.drop k := by
    rw [List.filter_eq_self]
    intro m hm
    simp only [decide_eq_true_eq]
    intro hmem
    exact hdisj hmem (List.mem_map_of_mem Message.id hm)
  have key : sorted.filter (fun m => decide (m.id ∉ tIds)) = sorted.drop k := by
    conv_lhs => rw [hsplit]
    rw [List.filter_append, htake, hdrop, List.nil_append]
  rw [key]

theorem prune_messages_length {maxM : Nat} {s : List Message} (h : (msgIds s).Nodup) :
    (prune_messages maxM s).length = s.length - (s.length - maxM) := by
  have hperm := @prune_messages_perm_drop maxM s h
  rw [hperm.length_eq, List.length_drop, (sortDescMessages_perm s).length_eq]

/-! The insertion walk of a message batch. -/

theorem execInsertMessages_ok (rows : List (Nat × List String)) (s : List Message)
    (h : ∀ r ∈ rows, r.2.length = 6) :
    execInsertMessages s rows = .ok (insertLoop s (rows.map rowToMsg)) := by
  induction rows generalizing s with
  | nil => simp [execInsertMessages, insertLoop]
  | cons r rest ih =>
    obtain ⟨i, fs⟩ := r
    have h6 : fs.length = 6 := h (i, fs) (List.mem_cons_self _ _)
    rcases fs with _ | ⟨e, fs⟩
    · simp at h6
    rcases fs with _ | ⟨m, fs⟩
    · simp at h6
    rcases fs with _ | ⟨c, fs⟩
    · simp at h6
    rcases fs with _ | ⟨n, fs⟩
    · simp at h6
    rcases fs with _ | ⟨p, fs⟩
    · simp at h6
    rcases fs with _ | ⟨ch, fs⟩
    · simp at h6
    rcases fs with _ | ⟨x, tl⟩
    case cons =>
      simp only [List.length_cons] at h6
      omega
    by_cases hdup : ∃ x ∈ s, x.id = i
    · simp [execInsertMessages, insertLoop, rowToMsg, hdup]
    · simp only [execInsertMessages, insertLoop, rowToMsg, if_neg hdup, List.map_cons]
      rw [ih _ (fun r hr => h r (List.mem_cons_of_mem _ hr))]

theorem insertedRun_congr {A B : List Nat} (h : ∀ x, x ∈ A ↔ x ∈ B) :
    ∀ L, insertedRun A L = insertedRun B L := by
  intro L
  induction L generalizing A B with
  | nil => rfl
  | cons m rest ih =>
    by_cases hm : m.id ∈ A
    · simp [insertedRun, hm, (h m.id).mp hm]
    · have hm' : m.id ∉ B := fun hc => hm ((h m.id).mpr hc)
      simp only [insertedRun, if_neg hm, if_neg hm']
      have h' : ∀ x, x ∈ m.id :: A ↔ x ∈ m.id :: B := fun x => by
        simp [List.mem_cons, h x]
      rw [ih h']

theorem insertLoop_eq_append_run (L : List Message) (s : List Message) :
    insertLoop s L = s ++ insertedRun (msgIds s) L := by
  induction L generalizing s with
  | nil => simp [insertLoop, insertedRun]
  | cons m rest ih =>
    by_cases hdup : ∃ x ∈ s, x.id = m.id
    · have hmem : m.id ∈ msgIds s := by
        obtain ⟨x, hx, he⟩ := hdup
        exact he ▸ List.mem_map_of_mem Message.id hx
      simp [insertLoop, insertedRun, hdup, hmem]
    · have hmem : m.id ∉ msgIds s := by
        intro hc
        obtain ⟨x, hx, he⟩ := List.mem_map.mp hc
        exact hdup ⟨x, hx, he⟩
      simp only [insertLoop, insertedRun, if_neg hdup, if_neg hmem]
      rw [ih (s ++ [m])]
      have hseen : ∀ x, x ∈ msgIds (s ++ [m]) ↔ x ∈ m.id :: msgIds s := by
        intro x
        simp [msgIds, List.mem_cons, List.mem_append, or_comm]
      rw [insertedRun_congr hseen rest]
      simp

theorem insertedRun_id_not_seen {L : List Message} :
    ∀ {seen : List Nat}, ∀ m ∈ insertedRun seen L, m.id ∉ seen := by
  induction L with
  | nil => intro seen m hm; simp [insertedRun] at hm
  | cons x rest ih =>
    intro seen m hm
    by_cases hx : x.id ∈ seen
    · simp [insertedRun, hx] at hm
    · simp only [insertedRun, if_neg hx] at hm
      rcases List.mem_cons.mp hm with rfl | hm'
      · exact hx
      · have := ih m hm'
        intro hc
        exact this (List.mem_cons_of_mem _ hc)

theorem insertedRun_ids_nodup {L : List Message} :
    ∀ {seen : List Nat}, (msgIds (insertedRun seen L)).Nodup := by
  induction L with
  | nil => intro seen; simp [insertedRun, msgIds]
  | cons x rest ih =>
    intro seen
    by_cases hx : x.id ∈ seen
    · simp [insertedRun, hx, msgIds]
    · simp only [insertedRun, if_neg hx, msgIds, List.map_cons, List.nodup_cons]
      constructor
      · intro hc
        obtain ⟨m, hm, he⟩ := List.mem_map.mp hc
        have := insertedRun_id_not_seen m hm
        rw [he] at this
        exact this (List.mem_cons_self _ _)
      · exact ih

theorem insertedRun_hit_subset {L : List Message} :
    ∀ {A B : List Nat}, (∃ p ∈ insertedRun A L, p.id ∈ B) →
      ∀ q ∈ insertedRun B L, q ∈ insertedRun A L := by
  induction L with
  | nil => intro A B _ q hq; simp [insertedRun] at hq
  | cons m rest ih =>
    intro A B hex q hq
    by_cases hmB : m.id ∈ B
    · simp [insertedRun, hmB] at hq
    · by_cases hmA : m.id ∈ A
      · rw [insertedRun, if_pos hmA] at hex
        simp at hex
      · simp only [insertedRun, if_neg hmA, if_neg hmB] at hex hq ⊢
        rcases List.mem_cons.mp hq with rfl | hq'
        · exact List.mem_cons_self _ _
        · obtain ⟨p, hp, hpB⟩ := hex
          rcases List.mem_cons.mp hp with rfl | hp'
          · exact absurd hpB hmB
          · exact List.mem_cons_of_mem _
              (ih ⟨p, hp', List.mem_cons_of_mem _ hpB⟩ q hq')

/-! Reduction of `update_messages` on an accepted feed. -/

theorem parseMsgLine_ok {l : String} (h : MsgLineOk l) :
    parseMsgLine l =
      .ok ((parseHexNat ((splitTab l).headD "")).getD 0, ((splitTab l).drop 1).take 6) := by
  obtain ⟨hhex, _⟩ := h
  obtain ⟨i, hi⟩ := Option.isSome_iff_exists.mp hhex
  unfold parseMsgLine
  simp at hi ⊢
  simp [hi]

theorem msgLineOk_fields_len {l : String} (h : MsgLineOk l) :
    (((splitTab l).drop 1).take 6).length = 6 := by
  obtain ⟨_, hlen⟩ := h
  simp only [List.length_take, List.length_drop]
  omega

theorem parseMsgLines_ok {ls : List String} (h : ∀ l ∈ ls, MsgLineOk l) :
    ∃ rows, parseMsgLines ls = .ok rows ∧ (∀ r ∈ rows, r.2.length = 6) ∧
      rows.map rowToMsg = ls.map lineToMsg := by
  induction ls with
  | nil => exact ⟨[], rfl, by simp, by simp⟩
  | cons l rest ih =>
    obtain ⟨rows, hrows, harity, hmap⟩ := ih (fun x hx => h x (List.mem_cons_of_mem _ hx))
    have hl := h l (List.mem_cons_self _ _)
    refine ⟨((parseHexNat ((splitTab l).headD "")).getD 0,
      ((splitTab l).drop 1).take 6) :: rows, ?_, ?_, ?_⟩
    · simp [parseMsgLines, parseMsgLine_ok hl, hrows]
    · intro r hr
      rcases List.mem_cons.mp hr with rfl | hr'
      · exact msgLineOk_fields_len hl
      · exact harity r hr'
    · simp [List.map_cons, hmap, lineToMsg]

theorem update_messages_of_feedOk {maxM : Nat} {feed : String} (h : MsgFeedOk feed)
    (s : List Message) :
    update_messages maxM feed s = .ok (prune_messages maxM (insertLoop s (feedMsgs feed))) := by
  obtain ⟨rows, hrows, harity, hmap⟩ := parseMsgLines_ok h
  simp only [update_messages, hrows, execInsertMessages_ok rows s harity, hmap, feedMsgs]

/-! Idempotence of one message-feed merge against a store inside the
retention bound: merging the same batch again is absorbed. -/

theorem insertLoop_prune_idem {maxM : Nat} {S : List Message} (L : List Message)
    (hnd : (msgIds S).Nodup) (hle : S.length ≤ maxM) :
    prune_messages maxM (insertLoop (prune_messages maxM (insertLoop S L)) L)
      = prune_messages maxM (insertLoop S L) := by
  have hT1eq : insertLoop S L = S ++ insertedRun (msgIds S) L := insertLoop_eq_append_run L S
  rw [hT1eq]
  set P1 := insertedRun (msgIds S) L with hP1def
  set T1 := S ++ P1 with hT1def
  set S1 := prune_messages maxM T1 with hS1def
  have hP1fresh : ∀ m ∈ P1, m.id ∉ msgIds S := fun m hm => insertedRun_id_not_seen m hm
  have hP1nd : (msgIds P1).Nodup := insertedRun_ids_nodup
  have hmsgIdsT1 : msgIds T1 = msgIds S ++ msgIds P1 := by
    rw [hT1def]; simp [msgIds]
  have hT1nd : (msgIds T1).Nodup := by
    rw [hmsgIdsT1, List.nodup_append]
    refine ⟨hnd, hP1nd, ?_⟩
    intro x hx hx'
    obtain ⟨p, hp, hpe⟩ := List.mem_map.mp hx'
    exact hP1fresh p hp (by rw [hpe]; exact hx)
  by_cases hk : T1.length ≤ maxM
  · -- the first merge did not prune: the second walk stops at its first row
    have hS1T1 : S1 = T1 := by rw [hS1def]; exact prune_messages_of_le hk
    have hrun2 : insertLoop S1 L = S1 := by
      cases L with
      | nil => rfl
      | cons m rest =>
        have hmT1 : m.id ∈ msgIds T1 := by
          by_cases hm : m.id ∈ msgIds S
          · rw [hmsgIdsT1]
            exact List.mem_append.mpr (Or.inl hm)
          · have hP1head : P1 = m :: insertedRun (m.id :: msgIds S) rest := by
              rw [hP1def]
              simp only [insertedRun, if_neg hm]
            rw [hmsgIdsT1]
            refine List.mem_append.mpr (Or.inr ?_)
            rw [hP1head]
            exact List.mem_map_of_mem Message.id (List.mem_cons_self _ _)
        have hex : ∃ x ∈ S1, x.id = m.id := by
          rw [hS1T1]
          obtain ⟨x, hx, he⟩ := List.mem_map.mp hmT1
          exact ⟨x, hx, he⟩
        simp [insertLoop, hex]
    rw [hrun2, hS1T1]
    exact prune_messages_of_le hk
  · -- the first merge pruned down to the bound
    push_neg at hk
    set sorted := sortDescMessages T1 with hsorted
    set k1 := T1.length - maxM with hk1
    have hsortedPerm : sorted.Perm T1 := sortDescMessages_perm T1
    have hsortedSorted : List.Sorted msgR sorted := sortDescMessages_sorted T1
    have hS1perm : S1.Perm (sorted.drop k1) := prune_messages_perm_drop hT1nd
    have hS1len : S1.length = maxM := by
      rw [hS1def, prune_messages_length hT1nd]
      omega
    have hS1filter :
        S1 = T1.filter (fun m => decide (m.id ∉ (sorted.take k1).map Message.id)) := by
      rw [hS1def]
      exact prune_messages_filter_form maxM T1
    have hPr_mem : ∀ x ∈ T1, x.id ∉ msgIds S1 → x ∈ sorted.take k1 := by
      intro x hx hxid
      have hxs : x ∈ sorted := hsortedPerm.mem_iff.mpr hx
      rw [← List.take_append_drop k1 sorted, List.mem_append] at hxs
      rcases hxs with h | h
      · exact h
      · exact absurd (List.mem_map_of_mem Message.id (hS1perm.mem_iff.mpr h)) hxid
    set P2 := insertedRun (msgIds S1) L with hP2def
    have hP2fresh : ∀ q ∈ P2, q.id ∉ msgIds S1 := fun q hq => insertedRun_id_not_seen q hq
    have hP2sub : ∀ q ∈ P2, q ∈ sorted.take k1 := by
      by_cases hhit : ∃ p ∈ P1, p.id ∈ msgIds S1
      · intro q hq
        have hqP1 : q ∈ P1 := insertedRun_hit_subset hhit q hq
        have hqT1 : q ∈ T1 := by
          rw [hT1def]
          exact List.mem_append.mpr (Or.inr hqP1)
        exact hPr_mem q hqT1 (hP2fresh q hq)
      · push_neg at hhit
        have hP1Pr : ∀ p ∈ P1, p ∈ sorted.take k1 := by
          intro p hp
          have hpT1 : p ∈ T1 := by
            rw [hT1def]
            exact List.mem_append.mpr (Or.inr hp)
          exact hPr_mem p hpT1 (hhit p hp)
        have hP1ndL : P1.Nodup := List.Nodup.of_map Message.id hP1nd
        have hsubperm : List.Subperm P1 (sorted.take k1) :=
          List.subperm_of_subset hP1ndL hP1Pr
        have hsortlen : sorted.length = T1.length := hsortedPerm.length_eq
        have hT1len : T1.length = S.length + P1.length := by
          rw [hT1def]
          simp
        have hlenPr : (sorted.take k1).length = k1 := by
          rw [List.length_take]
          omega
        have hlenP1 : P1.length ≤ k1 := by
          have := hsubperm.length_le
          omega
        have hperm' : P1.Perm (sorted.take k1) := by
          refine hsubperm.perm_of_length_le ?_
          omega
        have hS1S : S1 = S := by
          rw [hS1filter, hT1def, List.filter_append]
          have hfS : S.filter (fun m => decide (m.id ∉ (sorted.take k1).map Message.id)) = S := by
            rw [List.filter_eq_self]
            intro s hs
            simp only [decide_eq_true_eq]
            intro hc
            have hcp : s.id ∈ msgIds P1 := (hperm'.map Message.id).mem_iff.mpr hc
            obtain ⟨p, hp, hpe⟩ := List.mem_map.mp hcp
            exact hP1fresh p hp (by rw [hpe]; exact List.mem_map_of_mem Message.id hs)
          have hfP1 : P1.filter (fun m => decide (m.id ∉ (sorted.take k1).map Message.id)) = [] := by
            rw [List.filter_eq_nil_iff]
            intro p hp
            simp only [decide_eq_true_eq, not_not]
            exact List.mem_map_of_mem Message.id (hP1Pr p hp)
          rw [hfS, hfP1, List.append_nil]
        intro q hq
        have hP2P1 : P2 = P1 := by
          rw [hP2def, hP1def, hS1S]
        rw [hP2P1] at hq
        exact hP1Pr q hq
    have hstrict : ∀ p ∈ P2, ∀ s1 ∈ S1, msgR p s1 ∧ ¬ msgR s1 p := by
      intro p hp s1 hs1
      have hpPr : p ∈ sorted.take k1 := hP2sub p hp
      have hs1drop : s1 ∈ sorted.drop k1 := hS1perm.mem_iff.mp hs1
      have hpw : List.Pairwise msgR (sorted.take k1 ++ sorted.drop k1) := by
        rw [List.take_append_drop]
        exact hsortedSorted
      have hpair : msgR p s1 := (List.pairwise_append.mp hpw).2.2 p hpPr s1 hs1drop
      refine ⟨hpair, ?_⟩
      intro hrev
      have hkey := msgR_key_antisymm hpair hrev
      exact hP2fresh p hp (by rw [hkey.2]; exact List.mem_map_of_mem Message.id hs1)
    have hT2eq : insertLoop S1 L = S1 ++ P2 := by
      rw [insertLoop_eq_append_run L S1, hP2def]
    rw [hT2eq]
    set T2 := S1 ++ P2 with hT2def
    have hT2len : T2.length = maxM + P2.length := by
      rw [hT2def, List.length_append, hS1len]
    set sorted2 := sortDescMessages T2 with hsorted2
    have hs2perm : sorted2.Perm T2 := sortDescMessages_perm T2
    have hs2sorted : List.Sorted msgR sorted2 := sortDescMessages_sorted T2
    have hsplit2 := @sorted_take_append_perm sorted2 P2 S1 hs2sorted
      (hs2perm.trans (by rw [hT2def]; exact List.perm_append_comm)) hstrict
    have htake2 : (sorted2.take P2.length).Perm P2 := hsplit2.1
    rw [prune_messages_filter_form maxM T2]
    rw [show T2.length - maxM = P2.length from by omega]
    have hidsiff : ∀ x, x ∈ (sorted2.take P2.length).map Message.id ↔ x ∈ msgIds P2 :=
      fun x => (htake2.map Message.id).mem_iff
    have hfS1 :
        S1.filter (fun m => decide (m.id ∉ (sorted2.take P2.length).map Message.id)) = S1 := by
      rw [List.filter_eq_self]
      intro s1 hs1
      simp only [decide_eq_true_eq]
      intro hc
      have hcs : s1.id ∈ msgIds P2 := (hidsiff _).mp hc
      obtain ⟨q, hq, hqe⟩ := List.mem_map.mp hcs
      exact hP2fresh q hq (by rw [hqe]; exact List.mem_map_of_mem Message.id hs1)
    have hfP2 :
        P2.filter (fun m => decide (m.id ∉ (sorted2.take P2.length).map Message.id)) = [] := by
      rw [List.filter_eq_nil_iff]
      intro q hq
      simp only [decide_eq_true_eq, not_not]
      exact (hidsiff _).mpr (List.mem_map_of_mem Message.id hq)
    conv_lhs => rw [hT2def]
    rw [List.filter_append, hfS1, hfP2, List.append_nil]

/-! Shape lemmas for the executemany walks. -/

theorem rowToMsg_id (r : Nat × List String) : (rowToMsg r).id = r.1 := by
  unfold rowToMsg
  split <;> rfl

theorem execInsertMessages_cons_six {i : Nat} {fs : List String} (h6 : fs.length = 6)
    (s : List Message) (rest : List (Nat × List String)) :
    execInsertMessages s ((i, fs) :: rest) =
      if ∃ x ∈ s, x.id = i then .ok s
      else execInsertMessages (s ++ [rowToMsg (i, fs)]) rest := by
  rcases fs with _ | ⟨e, fs⟩
  · simp at h6
  rcases fs with _ | ⟨m, fs⟩
  · simp at h6
  rcases fs with _ | ⟨c, fs⟩
  · simp at h6
  rcases fs with _ | ⟨n, fs⟩
  · simp at h6
  rcases fs with _ | ⟨p, fs⟩
  · simp at h6
  rcases fs with _ | ⟨ch, fs⟩
  · simp at h6
  rcases fs with _ | ⟨x, tl⟩
  case cons =>
    simp only [List.length_cons] at h6
    omega
  rfl

theorem execInsertMessages_cons_bad {i : Nat} {fs : List String} (h : fs.length ≠ 6)
    (s : List Message) (rest : List (Nat × List String)) :
    execInsertMessages s ((i, fs) :: rest) = .error .programmingError := by
  rcases fs with _ | ⟨e, fs⟩
  · rfl
  rcases fs with _ | ⟨m, fs⟩
  · rfl
  rcases fs with _ | ⟨c, fs⟩
  · rfl
  rcases fs with _ | ⟨n, fs⟩
  · rfl
  rcases fs with _ | ⟨p, fs⟩
  · rfl
  rcases fs with _ | ⟨ch, fs⟩
  · rfl
  rcases fs with _ | ⟨x, tl⟩
  case cons => rfl
  simp at h

theorem execReplaceUsers_cons_five {fs : List String} (h5 : fs.length = 5)
    (s : List UserRow) (rest : List (List String)) :
    execReplaceUsers s (fs :: rest) =
      execReplaceUsers (replaceUser s (userRowOfFields fs)) rest := by
  rcases fs with _ | ⟨a, fs⟩
  · simp at h5
  rcases fs with _ | ⟨b, fs⟩
  · simp at h5
  rcases fs with _ | ⟨c, fs⟩
  · simp at h5
  rcases fs with _ | ⟨d, fs⟩
  · simp at h5
  rcases fs with _ | ⟨e, fs⟩
  · simp at h5
  rcases fs with _ | ⟨x, tl⟩
  case cons =>
    simp only [List.length_cons] at h5
    omega
  rfl

theorem execReplaceUsers_cons_bad {fs : List String} (h : fs.length ≠ 5)
    (s : List UserRow) (rest : List (List String)) :
    execReplaceUsers s (fs :: rest) = .error .programmingError := by
  rcases fs with _ | ⟨a, fs⟩
  · rfl
  rcases fs with _ | ⟨b, fs⟩
  · rfl
  rcases fs with _ | ⟨c, fs⟩
  · rfl
  rcases fs with _ | ⟨d, fs⟩
  · rfl
  rcases fs with _ | ⟨e, fs⟩
  · rfl
  rcases fs with _ | ⟨x, tl⟩
  case cons => rfl
  simp at h

theorem execReplaceFiles_cons_five {fs : List String} (h5 : fs.length = 5)
    (s : List FileRow) (rest : List (List String)) :
    execReplaceFiles s (fs :: rest) =
      execReplaceFiles (replaceFile s (fileRowOfFields fs)) rest := by
  rcases fs with _ | ⟨a, fs⟩
  · simp at h5
  rcases fs with _ | ⟨b, fs⟩
  · simp at h5
  rcases fs with _ | ⟨c, fs⟩
  · simp at h5
  rcases fs with _ | ⟨d, fs⟩
  · simp at h5
  rcases fs with _ | ⟨e, fs⟩
  · simp at h5
  rcases fs with _ | ⟨x, tl⟩
  case cons =>
    simp only [List.length_cons] at h5
    omega
  rfl

theorem execReplaceFiles_cons_bad {fs : List String} (h : fs.length ≠ 5)
    (s : List FileRow) (rest : List (List String)) :
    execReplaceFiles s (fs :: rest) = .error .programmingError := by
  rcases fs with _ | ⟨a, fs⟩
  · rfl
  rcases fs with _ | ⟨b, fs⟩
  · rfl
  rcases fs with _ | ⟨c, fs⟩
  · rfl
  rcases fs with _ | ⟨d, fs⟩
  · rfl
  rcases fs with _ | ⟨e, fs⟩
  · rfl
  rcases fs with _ | ⟨x, tl⟩
  case cons => rfl
  simp at h

theorem execReplaceUsers_error {rows : List (List String)}
    (h : ∃ fs ∈ rows, fs.length ≠ 5) :
    ∀ s, execReplaceUsers s rows = .error .programmingError := by
  induction rows with
  | nil =>
    obtain ⟨fs, hfs, _⟩ := h
    simp at hfs
  | cons g rest ih =>
    intro s
    by_cases h5 : g.length = 5
    · rw [execReplaceUsers_cons_five h5]
      obtain ⟨fs, hfs, hlen⟩ := h
      rcases List.mem_cons.mp hfs with rfl | hfs'
      · exact absurd h5 hlen
      · exact ih ⟨fs, hfs', hlen⟩ _
    · exact execReplaceUsers_cons_bad h5 s rest

theorem execReplaceFiles_error {rows : List (List String)}
    (h : ∃ fs ∈ rows, fs.length ≠ 5) :
    ∀ s, execReplaceFiles s rows = .error .programmingError := by
  induction rows with
  | nil =>
    obtain ⟨fs, hfs, _⟩ := h
    simp at hfs
  | cons g rest ih =>
    intro s
    by_cases h5 : g.length = 5
    · rw [execReplaceFiles_cons_five h5]
      obtain ⟨fs, hfs, hlen⟩ := h
      rcases List.mem_cons.mp hfs with rfl | hfs'
      · exact absurd h5 hlen
      · exact ih ⟨fs, hfs', hlen⟩ _
    · exact execReplaceFiles_cons_bad h5 s rest

/-! Parse-stage lemmas for `update_messages`. -/

theorem parseMsgLines_error_of_badhex {ls : List String}
    (h : ∃ l ∈ ls, parseHexNat ((splitTab l).headD "") = none) :
    parseMsgLines ls = .error .valueError := by
  induction ls with
  | nil =>
    obtain ⟨l, hl, _⟩ := h
    simp at hl
  | cons l rest ih =>
    by_cases hx : parseHexNat ((splitTab l).headD "") = none
    · have hline : parseMsgLine l = .error .valueError := by
        unfold parseMsgLine
        simp at hx ⊢
        simp [hx]
      simp [parseMsgLines, hline]
    · obtain ⟨g, hg, hgx⟩ := h
      rcases List.mem_cons.mp hg with rfl | hg'
      · exact absurd hgx hx
      · have hrest := ih ⟨g, hg', hgx⟩
        obtain ⟨i, hi⟩ := Option.ne_none_iff_exists.mp hx
        have hline : parseMsgLine l =
            .ok (i, ((splitTab l).drop 1).take 6) := by
          unfold parseMsgLine
          simp at hi ⊢
          simp [← hi]
        simp [parseMsgLines, hline, hrest]

theorem parseMsgLines_hex_ok {ls : List String}
    (h : ∀ l ∈ ls, (parseHexNat ((splitTab l).headD "")).isSome) :
    parseMsgLines ls = .ok (ls.map (fun l =>
      ((parseHexNat ((splitTab l).headD "")).getD 0, ((splitTab l).drop 1).take 6))) := by
  induction ls with
  | nil => rfl
  | cons l rest ih =>
    have hl := h l (List.mem_cons_self _ _)
    obtain ⟨i, hi⟩ := Option.isSome_iff_exists.mp hl
    have hline : parseMsgLine l =
        .ok ((parseHexNat ((splitTab l).headD "")).getD 0, ((splitTab l).drop 1).take 6) := by
      unfold parseMsgLine
      simp at hi ⊢
      simp [hi]
    have hrest := ih (fun x hx => h x (List.mem_cons_of_mem _ hx))
    simp [parseMsgLines, hline, hrest]

theorem execInsertMessages_append_fresh {good : List (Nat × List String)} :
    ∀ s, (∀ r ∈ good, r.2.length = 6) →
    insertedRun (msgIds s) (good.map rowToMsg) = good.map rowToMsg →
    ∀ tail, execInsertMessages s (good ++ tail) = execInsertMessages (s ++ good.map rowToMsg) tail := by
  induction good with
  | nil =>
    intro s _ _ tail
    simp
  | cons r good' ih =>
    intro s harity hrun tail
    have h6 : r.2.length = 6 := harity r (List.mem_cons_self _ _)
    obtain ⟨i, fs⟩ := r
    rw [List.cons_append, execInsertMessages_cons_six h6]
    simp only [List.map_cons] at hrun
    have hfresh : (rowToMsg (i, fs)).id ∉ msgIds s := by
      intro hc
      rw [insertedRun, if_pos hc] at hrun
      simp at hrun
    have hne : ¬ ∃ x ∈ s, x.id = i := by
      rintro ⟨x, hx, he⟩
      apply hfresh
      rw [rowToMsg_id, ← he]
      exact List.mem_map_of_mem Message.id hx
    rw [if_neg hne]
    have htail : insertedRun ((rowToMsg (i, fs)).id :: msgIds s) (good'.map rowToMsg)
        = good'.map rowToMsg := by
      rw [insertedRun, if_neg hfresh] at hrun
      exact (List.cons_injective.eq_iff.mp hrun)
    have hiff : ∀ x, x ∈ msgIds (s ++ [rowToMsg (i, fs)])
        ↔ x ∈ (rowToMsg (i, fs)).id :: msgIds s := by
      intro x
      simp [msgIds, List.mem_append, or_comm]
    have hrun' : insertedRun (msgIds (s ++ [rowToMsg (i, fs)])) (good'.map rowToMsg)
        = good'.map rowToMsg := by
      rw [insertedRun_congr hiff (good'.map rowToMsg)]
      exact htail
    have hstep := ih (s ++ [rowToMsg (i, fs)])
      (fun r hr => harity r (List.mem_cons_of_mem _ hr)) hrun' tail
    rw [hstep, List.append_assoc]
    rfl

/-! A stopped insertion walk ignores everything after the stopping row. -/

theorem insertedRun_stop_extend {A : List Message} :
    ∀ (seen : List Nat) (b : Message) (rest : List Message),
      insertedRun seen (A ++ [b]) = A → insertedRun seen (A ++ b :: rest) = A := by
  induction A with
  | nil =>
    intro seen b rest h
    by_cases hb : b.id ∈ seen
    · simp [insertedRun, hb]
    · rw [List.nil_append, insertedRun, if_neg hb] at h
      simp at h
  | cons a A' ih =>
    intro seen b rest h
    by_cases ha : a.id ∈ seen
    · rw [List.cons_append, insertedRun, if_pos ha] at h
      simp at h
    · rw [List.cons_append, insertedRun, if_neg ha] at h
      have h' := List.cons_injective.eq_iff.mp h
      rw [List.cons_append, insertedRun, if_neg ha, ih _ _ _ h']

/-! String-splitting lemmas for separator-free fields. -/

theorem str_data_append (a b : String) : (a ++ b).data = a.data ++ b.data := by
  cases a
  cases b
  rfl

theorem str_mk_data (s : String) : String.mk s.data = s := rfl

theorem splitOnChar_not_mem {sep : Char} {cs : List Char} (h : sep ∉ cs) :
    splitOnChar sep cs = [cs] := by
  induction cs with
  | nil => rfl
  | cons c rest ih =>
    have hc : ¬ c = sep := by
      intro he
      subst he
      exact h (List.mem_cons_self _ _)
    have hrest : sep ∉ rest := fun hr => h (List.mem_cons_of_mem _ hr)
    rw [splitOnChar, if_neg hc, ih hrest]

theorem splitOnChar_append_sep {sep : Char} {xs : List Char} (h : sep ∉ xs) (ys : List Char) :
    splitOnChar sep (xs ++ sep :: ys) = xs :: splitOnChar sep ys := by
  induction xs with
  | nil =>
    rw [List.nil_append, splitOnChar, if_pos rfl]
  | cons c rest ih =>
    have hc : ¬ c = sep := by
      intro he
      subst he
      exact h (List.mem_cons_self _ _)
    have hrest : sep ∉ rest := fun hr => h (List.mem_cons_of_mem _ hr)
    rw [List.cons_append, splitOnChar, if_neg hc, ih hrest]

theorem userLine_data (u : UserRow) :
    (userLine u).data = u.call_sign.data ++ '\t' ::
      (u.id.data ++ '\t' :: (u.node.data ++ '\t' :: (u.epoch.data ++ '\t' :: u.platform.data))) := by
  have htab : ("\t" : String).data = ['\t'] := rfl
  simp [userLine, str_data_append, htab, List.append_assoc]

theorem userLine_ne_nil (u : UserRow) : (userLine u).data ≠ [] := by
  rw [userLine_data]
  simp

theorem userLine_newline_free {u : UserRow} (hc : UserRowClean u) :
    '\n' ∉ (userLine u).data := by
  obtain ⟨h1, h2, h3, h4, h5⟩ := hc
  rw [userLine_data]
  simp [List.mem_append, h1.2, h2.2, h3.2, h4.2, h5.2]

theorem splitTab_userLine {u : UserRow} (hc : UserRowClean u) :
    splitTab (userLine u) = [u.call_sign, u.id, u.node, u.epoch, u.platform] := by
  obtain ⟨h1, h2, h3, h4, h5⟩ := hc
  unfold splitTab
  rw [userLine_data, splitOnChar_append_sep h1.1, splitOnChar_append_sep h2.1,
    splitOnChar_append_sep h3.1, splitOnChar_append_sep h4.1, splitOnChar_not_mem h5.1]
  simp [str_mk_data]

theorem pySplitlines_userLine_single {u : UserRow} (hc : UserRowClean u) :
    pySplitlines (userLine u) = [userLine u] := by
  unfold pySplitlines
  rw [splitOnChar_not_mem (userLine_newline_free hc)]
  have hne : ¬ ([(userLine u).data].getLast? = some []) := by
    simp [userLine_ne_nil u]
  simp [hne, str_mk_data, userLine_ne_nil u]

theorem pySplitlines_userLine_pair {u v : UserRow} (hcu : UserRowClean u)
    (hcv : UserRowClean v) :
    pySplitlines (userLine u ++ "\n" ++ userLine v) = [userLine u, userLine v] := by
  unfold pySplitlines
  have hnl : ("\n" : String).data = ['\n'] := rfl
  have hdata : (userLine u ++ "\n" ++ userLine v).data
      = (userLine u).data ++ '\n' :: (userLine v).data := by
    simp [str_data_append, hnl]
  rw [hdata, splitOnChar_append_sep (userLine_newline_free hcu),
    splitOnChar_not_mem (userLine_newline_free hcv)]
  have hne : ¬ ([(userLine u).data, (userLine v).data].getLast? = some []) := by
    simp [userLine_ne_nil v]
  simp [hne, str_mk_data, userLine_ne_nil v]

/-! Reduction of `update_users` on rendered rows, and REPLACE algebra. -/

theorem update_users_userLine {u : UserRow} (hc : UserRowClean u) (s : List UserRow) :
    update_users (userLine u) s = .ok (replaceUser s u) := by
  unfold update_users
  rw [pySplitlines_userLine_single hc]
  simp only [List.map_cons, List.map_nil, splitTab_userLine hc]
  rfl

theorem update_users_userLine_pair {r₁ r₂ : UserRow} (hc₁ : UserRowClean r₁)
    (hc₂ : UserRowClean r₂) (s : List UserRow) :
    update_users (userLine r₁ ++ "\n" ++ userLine r₂) s
      = .ok (replaceUser (replaceUser s r₁) r₂) := by
  unfold update_users
  rw [pySplitlines_userLine_pair hc₁ hc₂]
  simp only [List.map_cons, List.map_nil, splitTab_userLine hc₁, splitTab_userLine hc₂]
  rfl

theorem replaceUser_filter_key (s : List UserRow) (r : UserRow) :
    (replaceUser s r).filter (fun v => decide (userKey v = userKey r)) = [r] := by
  unfold replaceUser
  rw [List.filter_append]
  have h1 : (s.filter (fun v => decide (userKey v ≠ userKey r))).filter
      (fun v => decide (userKey v = userKey r)) = [] := by
    rw [List.filter_filter, List.filter_eq_nil_iff]
    intro a _
    by_cases hk : userKey a = userKey r <;> simp [hk]
  have h2 : [r].filter (fun v => decide (userKey v = userKey r)) = [r] := by simp
  rw [h1, h2, List.nil_append]

theorem replaceUser_replaceUser {r₁ r₂ : UserRow} (hk : userKey r₁ = userKey r₂)
    (s : List UserRow) :
    replaceUser (replaceUser s r₁) r₂
      = s.filter (fun v => decide (userKey v ≠ userKey r₂)) ++ [r₂] := by
  unfold replaceUser
  rw [hk, List.filter_append]
  have h1 : [r₁].filter (fun v => decide (userKey v ≠ userKey r₂)) = [] := by
    simp [hk]
  have h2 : (s.filter (fun v => decide (userKey v ≠ userKey r₂))).filter
      (fun v => decide (userKey v ≠ userKey r₂))
      = s.filter (fun v => decide (userKey v ≠ userKey r₂)) := by
    rw [List.filter_filter]
    apply List.filter_congr
    intro a _
    simp [Bool.and_self]
  rw [h1, h2, List.append_nil]

theorem filter_key_append_last (s : List UserRow) (r : UserRow) :
    ((s.filter (fun v => decide (userKey v ≠ userKey r))) ++ [r]).filter
      (fun v => decide (userKey v = userKey r)) = [r] := by
  rw [List.filter_append]
  have h1 : (s.filter (fun v => decide (userKey v ≠ userKey r))).filter
      (fun v => decide (userKey v = userKey r)) = [] := by
    rw [List.filter_filter, List.filter_eq_nil_iff]
    intro a _
    by_cases hk : userKey a = userKey r <;> simp [hk]
  have h2 : [r].filter (fun v => decide (userKey v = userKey r)) = [r] := by simp
  rw [h1, h2, List.nil_append]

/-! Discovery REPLACE algebra for the node registry. -/

theorem replaceNode_filter_ne {a nm : String} (h : a ≠ nm) (ns : List NodeRow) (b : Int) :
    (replaceNode ns a b).filter (fun n => decide (n.name = nm))
      = ns.filter (fun n => decide (n.name = nm)) := by
  unfold replaceNode
  rw [List.filter_append]
  have h1 : ([⟨a, some b, none, some 0, none, none⟩] : List NodeRow).filter
      (fun n => decide (n.name = nm)) = [] := by
    simp [h]
  have h2 : (ns.filter (fun n => decide (n.name ≠ a))).filter (fun n => decide (n.name = nm))
      = ns.filter (fun n => decide (n.name = nm)) := by
    rw [List.filter_filter]
    apply List.filter_congr
    intro n _
    by_cases hn : n.name = nm
    · have hna : n.name ≠ a := by
        rw [hn]
        exact fun he => h he.symm
      simp [hn, hna]
      exact fun he => h he.symm
    · simp [hn]
  rw [h1, h2, List.append_nil]

theorem replaceNode_filter_self (ns : List NodeRow) (nm : String) (pt : Int) :
    (replaceNode ns nm pt).filter (fun n => decide (n.name = nm))
      = [⟨nm, some pt, none, some 0, none, none⟩] := by
  unfold replaceNode
  rw [List.filter_append]
  have h1 : (ns.filter (fun n => decide (n.name ≠ nm))).filter (fun n => decide (n.name = nm))
      = [] := by
    rw [List.filter_filter, List.filter_eq_nil_iff]
    intro n _
    by_cases hn : n.name = nm <;> simp [hn]
  have h2 : ([⟨nm, some pt, none, some 0, none, none⟩] : List NodeRow).filter
      (fun n => decide (n.name = nm)) = [⟨nm, some pt, none, some 0, none, none⟩] := by
    simp
  rw [h1, h2, List.nil_append]

theorem replaceNodes_cons (ns : List NodeRow) (d : String × Int) (rest : List (String × Int)) :
    replaceNodes ns (d :: rest) = replaceNodes (replaceNode ns d.1 d.2) rest := rfl

theorem replaceNodes_filter_not_mem {ds : List (String × Int)} :
    ∀ (ns : List NodeRow) (nm : String), nm ∉ ds.map Prod.fst →
      (replaceNodes ns ds).filter (fun n => decide (n.name = nm))
        = ns.filter (fun n => decide (n.name = nm)) := by
  induction ds with
  | nil => intro ns nm _; rfl
  | cons d rest ih =>
    intro ns nm h
    simp only [List.map_cons, List.mem_cons] at h
    push_neg at h
    have hne : d.1 ≠ nm := fun he => h.1 he.symm
    rw [replaceNodes_cons, ih _ _ h.2, replaceNode_filter_ne hne]

/-! Claim theorems. -/

/-- C5: `prune_messages` (enforce) deletes exactly `max(0, n - max)` rows,
namely the rows at the head of the (epoch DESC, id DESC) ordering of the
full message set, leaves every other row in place in its original order,
and afterwards the stored count is at most the maximum. -/
theorem prune_messages_spec (maxM : Nat) (s : List Message) (h : (msgIds s).Nodup) :
    (prune_messages maxM s).length = s.length - (s.length - maxM)
    ∧ (prune_messages maxM s).Perm ((sortDescMessages s).drop (s.length - maxM))
    ∧ prune_messages maxM s = s.filter (fun m =>
        decide (m.id ∉ ((sortDescMessages s).take (s.length - maxM)).map Message.id))
    ∧ (prune_messages maxM s).length ≤ maxM := by
  refine ⟨prune_messages_length h, prune_messages_perm_drop h,
    prune_messages_filter_form maxM s, ?_⟩
  rw [prune_messages_length h]
  omega

/-- Witness: the pruning theorem applied to a concrete two-row store with
limit 1. -/
theorem prune_messages_spec_witness :
    (msgIds [cexMsg7, cexMsg2]).Nodup
    ∧ ((prune_messages 1 [cexMsg7, cexMsg2]).length
          = [cexMsg7, cexMsg2].length - ([cexMsg7, cexMsg2].length - 1)
      ∧ (prune_messages 1 [cexMsg7, cexMsg2]).Perm
          ((sortDescMessages [cexMsg7, cexMsg2]).drop ([cexMsg7, cexMsg2].length - 1))
      ∧ prune_messages 1 [cexMsg7, cexMsg2] = [cexMsg7, cexMsg2].filter (fun m =>
          decide (m.id ∉ ((sortDescMessages [cexMsg7, cexMsg2]).take
            ([cexMsg7, cexMsg2].length - 1)).map Message.id))
      ∧ (prune_messages 1 [cexMsg7, cexMsg2]).length ≤ 1) :=
  ⟨by decide, prune_messages_spec 1 [cexMsg7, cexMsg2] (by decide)⟩

/-- C9: `get_message_version` (localVersion) equals the arithmetic sum of
the stored message ids, and permuting the store (any insertion order of
the same rows) leaves the value unchanged. -/
theorem get_message_version_sum_perm (s₁ s₂ : List Message) (h : s₁.Perm s₂) :
    get_message_version s₁ = (s₁.map (fun m => (m.id : Int))).sum
    ∧ get_message_version s₁ = get_message_version s₂ := by
  have hsum : ∀ t : List Message,
      get_message_version t = (t.map (fun m => (m.id : Int))).sum := by
    intro t
    cases t with
    | nil => simp [get_message_version]
    | cons a u => rfl
  refine ⟨hsum s₁, ?_⟩
  rw [hsum s₁, hsum s₂]
  exact (h.map _).sum_eq

/-- Witness: the version theorem applied to two permuted two-row stores. -/
theorem get_message_version_sum_perm_witness :
    ([cexMsg7, cexMsg2] : List Message).Perm [cexMsg2, cexMsg7]
    ∧ (get_message_version [cexMsg7, cexMsg2]
          = ([cexMsg7, cexMsg2].map (fun m => (m.id : Int))).sum
      ∧ get_message_version [cexMsg7, cexMsg2] = get_message_version [cexMsg2, cexMsg7]) :=
  ⟨by decide, get_message_version_sum_perm _ _ (by decide)⟩

/-- C6: a fetch whose `Content-MD5` header is absent, or differs from the
digest of the received body, or whose body is empty, never invokes the
merge callback: the store is returned unchanged. -/
theorem fetch_integrity_gate (md5hex : String → String)
    (updateFn : String → EngineDb → Except PyErr EngineDb) (db : EngineDb) (r : FetchResult)
    (h : r.contentMD5 = none
        ∨ (∃ hdr, r.contentMD5 = some hdr ∧ md5hex r.body ≠ hdr)
        ∨ r.body = "") :
    fetch_raw_list md5hex (.got r) updateFn db = .ok db := by
  simp only [fetch_raw_list]
  by_cases h404 : r.status = 404
  · rw [if_pos h404]
  · rw [if_neg h404]
    have hcond : ¬ (check_message_checksum md5hex r = true ∧ r.body.length > 0) := by
      rintro ⟨hchk, hlen⟩
      unfold check_message_checksum at hchk
      rcases h with hnone | ⟨hdr, hh, hne⟩ | hempty
      · rw [hnone] at hchk
        simp at hchk
      · rw [hh] at hchk
        simp at hchk
        exact hne hchk
      · rw [hempty] at hlen
        simp at hlen
    rw [if_neg hcond]

/-- Witness: the integrity gate applied to a 200 response whose header
does not match the digest of the body. -/
theorem fetch_integrity_gate_witness :
    ((⟨200, some "beef", "abc"⟩ : FetchResult).contentMD5 = none
      ∨ (∃ hdr, (⟨200, some "beef", "abc"⟩ : FetchResult).contentMD5 = some hdr
          ∧ (fun (_ : String) => "") (⟨200, some "beef", "abc"⟩ : FetchResult).body ≠ hdr)
      ∨ (⟨200, some "beef", "abc"⟩ : FetchResult).body = "")
    ∧ fetch_raw_list (fun _ => "") (.got ⟨200, some "beef", "abc"⟩)
        (fun _ _ => .ok ⟨[], [], [], []⟩) cexDb = .ok cexDb :=
  ⟨Or.inr (Or.inl ⟨"beef", rfl, by decide⟩),
    fetch_integrity_gate (fun _ => "") (fun _ _ => .ok ⟨[], [], [], []⟩) cexDb _
      (Or.inr (Or.inl ⟨"beef", rfl, by decide⟩))⟩

/-- C10: the discovery REPLACE rebuilds a rediscovered peer's whole row
from only the discovered name and port with alive=0, so a previously
recorded messages_version, last_polled and non_mesh are reset to NULL. -/
theorem discover_replaces_row (ds : List (String × Int)) :
    ∀ (ns : List NodeRow) (nm : String) (pt : Int),
      (nm, pt) ∈ ds → (ds.map Prod.fst).Nodup →
      (replaceNodes ns ds).filter (fun n => decide (n.name = nm))
        = [⟨nm, some pt, none, some 0, none, none⟩] := by
  induction ds with
  | nil =>
    intro ns nm pt hmem _
    simp at hmem
  | cons d rest ih =>
    intro ns nm pt hmem hnd
    simp only [List.map_cons, List.nodup_cons] at hnd
    rcases List.mem_cons.mp hmem with heq | hmem'
    · rw [replaceNodes_cons, replaceNodes_filter_not_mem _ _ (by rw [← heq] at hnd; exact hnd.1)]
      rw [show d = (nm, pt) from heq.symm]
      exact replaceNode_filter_self ns nm pt
    · rw [replaceNodes_cons]
      exact ih _ nm pt hmem' hnd.2

/-- Witness: rediscovery of a peer whose row held a version, poll time and
non-mesh flag leaves a fully reset row. -/
theorem discover_replaces_row_witness :
    (("nodeA", (9000 : Int)) ∈ [("nodeA", (9000 : Int))]
      ∧ ([("nodeA", (9000 : Int))].map Prod.fst).Nodup)
    ∧ (replaceNodes [⟨"nodeA", some 8080, some 3, some 1, some "2024", some 1⟩]
        [("nodeA", 9000)]).filter (fun n => decide (n.name = "nodeA"))
        = [⟨"nodeA", some 9000, none, some 0, none, none⟩] :=
  ⟨⟨by decide, by decide⟩,
    discover_replaces_row [("nodeA", 9000)]
      [⟨"nodeA", some 8080, some 3, some 1, some "2024", some 1⟩] "nodeA" 9000
      (by decide) (by decide)⟩

/-- C4 counterexample: a 404 fetch leaves the registry untouched — in
particular the peer's non_mesh column stays NULL, and the peer is still
selected by the alive-only node query used for later fetches. -/
theorem fetch_404_not_marked_cex :
    fetch_raw_list (fun _ => "") (.got ⟨404, none, ""⟩) (fun _ _ => .ok ⟨[], [], [], []⟩) cexDb
      = .ok cexDb
    ∧ cexDb.nodes.map NodeRow.non_mesh = [none]
    ∧ get_node_list true false cexDb.nodes = cexDb.nodes := by
  decide

/-- C4 corrected (amended): on an HTTP 404 `fetch_raw_list` abandons the
fetch for this cycle with no database write at all — the peer is not
marked nonMesh (the registry row is unchanged) — and node selection for
later fetches ignores the non_mesh column entirely (only alive is
consulted), so the peer is not skipped afterwards. -/
theorem fetch_404_no_registry_change (md5hex : String → String)
    (updateFn : String → EngineDb → Except PyErr EngineDb) (db : EngineDb) (r : FetchResult)
    (h404 : r.status = 404) :
    fetch_raw_list md5hex (.got r) updateFn db = .ok db
    ∧ (∀ (a nm₁ nm₂ : Bool) (ns : List NodeRow),
        get_node_list a nm₁ ns = get_node_list a nm₂ ns) := by
  constructor
  · simp only [fetch_raw_list]
    rw [if_pos h404]
  · intro a nm₁ nm₂ ns
    cases a <;> rfl

/-- Witness: the 404 theorem applied to the concrete fixture state. -/
theorem fetch_404_no_registry_change_witness :
    (⟨404, none, ""⟩ : FetchResult).status = 404
    ∧ (fetch_raw_list (fun _ => "") (.got ⟨404, none, ""⟩)
          (fun _ _ => .ok ⟨[], [], [], []⟩) cexDb = .ok cexDb
      ∧ (∀ (a nm₁ nm₂ : Bool) (ns : List NodeRow),
          get_node_list a nm₁ ns = get_node_list a nm₂ ns)) :=
  ⟨rfl, fetch_404_no_registry_change (fun _ => "") (fun _ _ => .ok ⟨[], [], [], []⟩)
    cexDb ⟨404, none, ""⟩ rfl⟩

/-- C3 counterexample: a probe answered with status 500 and body "7" does
not record 7 as the peer's messagesVersion — the malformed UPDATE raises
and the whole refresh commits nothing, leaving the column NULL. -/
theorem probe_version_nonstatus200_cex :
    refresh_node_list [cexNode] [("nodeA", 8080, .got 500 "7")] = [cexNode]
    ∧ probe_node [cexNode] "nodeA" (.got 500 "7") = .error .programmingError
    ∧ cexNode.messages_version = none := by
  decide

/-- C3 corrected (amended): on a 200 response the probe records the parsed
integer as the peer's messages_version and sets alive=1; on any non-200
response the code still parses the body as an integer but then feeds two
parameters to a one-placeholder UPDATE, raising ProgrammingError, so
nothing is recorded and the refresh cycle ends with the registry's
committed state unchanged. -/
theorem probe_version_recording (ns : List NodeRow) (nm : String) (body : String) (v : Int)
    (hv : parseDecInt body = some v) :
    probe_node ns nm (.got 200 body)
      = .ok (ns.map (fun n =>
          if n.name = nm then { n with messages_version := some v, alive := some 1 } else n))
    ∧ (∀ status : Nat, status ≠ 200 →
        probe_node ns nm (.got status body) = .error .programmingError)
    ∧ (∀ (nm' : String) (pt : Int) (status : Nat) (b : String), status ≠ 200 →
        (parseDecInt b).isSome → refresh_node_list ns [(nm', pt, .got status b)] = ns) := by
  refine ⟨?_, ?_, ?_⟩
  · simp only [probe_node]
    rw [if_neg (by simp), hv]
  · intro status hst
    simp only [probe_node]
    rw [if_pos hst, hv]
  · intro nm' pt status b hst hb
    obtain ⟨v', hv'⟩ := Option.isSome_iff_exists.mp hb
    have hprobe : probe_node (replaceNodes ns [(nm', pt)]) nm' (.got status b)
        = .error .programmingError := by
      simp only [probe_node]
      rw [if_pos hst, hv']
    simp only [refresh_node_list, List.map_cons, List.map_nil, probeAll, hprobe]

/-- Witness: the probe theorem applied to a concrete registry and body. -/
theorem probe_version_recording_witness :
    parseDecInt "7" = some 7
    ∧ (probe_node [cexNode] "nodeA" (.got 200 "7")
          = .ok ([cexNode].map (fun n =>
              if n.name = "nodeA" then
                { n with messages_version := some 7, alive := some 1 } else n))
      ∧ (∀ status : Nat, status ≠ 200 →
          probe_node [cexNode] "nodeA" (.got status "7") = .error .programmingError)
      ∧ (∀ (nm' : String) (pt : Int) (status : Nat) (b : String), status ≠ 200 →
          (parseDecInt b).isSome →
          refresh_node_list [cexNode] [(nm', pt, .got status b)] = [cexNode])) :=
  ⟨by decide, probe_version_recording [cexNode] "nodeA" "7" 7 (by decide)⟩

/-- C8: merging two user rows that share the composite key
(id, callSign, node) — whether in one feed or in two successive feeds —
leaves exactly one stored row for that key, equal in all fields to the
later-merged row; the epochs of the two rows are arbitrary and never
compared. -/
theorem update_users_last_write_wins (s : List UserRow) (r₁ r₂ : UserRow)
    (hk : userKey r₁ = userKey r₂) (hc₁ : UserRowClean r₁) (hc₂ : UserRowClean r₂) :
    update_users (userLine r₁ ++ "\n" ++ userLine r₂) s
        = .ok (s.filter (fun v => decide (userKey v ≠ userKey r₂)) ++ [r₂])
    ∧ (s.filter (fun v => decide (userKey v ≠ userKey r₂)) ++ [r₂]).filter
        (fun v => decide (userKey v = userKey r₂)) = [r₂]
    ∧ (∃ s₁, update_users (userLine r₁) s = .ok s₁
        ∧ update_users (userLine r₂) s₁
            = .ok (s.filter (fun v => decide (userKey v ≠ userKey r₂)) ++ [r₂])) := by
  refine ⟨?_, filter_key_append_last s r₂, ?_⟩
  · rw [update_users_userLine_pair hc₁ hc₂, replaceUser_replaceUser hk]
  · refine ⟨replaceUser s r₁, update_users_userLine hc₁ s, ?_⟩
    rw [update_users_userLine hc₂, replaceUser_replaceUser hk]

/-- Witness: last-write-wins at two concrete rows sharing a key, where the
later row carries the smaller epoch and still wins. -/
theorem update_users_last_write_wins_witness :
    (userKey (⟨"1", "KB1", "100", "nodeA", "pi"⟩ : UserRow)
        = userKey (⟨"1", "KB1", "50", "nodeA", "osx"⟩ : UserRow)
      ∧ UserRowClean (⟨"1", "KB1", "100", "nodeA", "pi"⟩ : UserRow)
      ∧ UserRowClean (⟨"1", "KB1", "50", "nodeA", "osx"⟩ : UserRow))
    ∧ (update_users (userLine (⟨"1", "KB1", "100", "nodeA", "pi"⟩ : UserRow) ++ "\n"
          ++ userLine (⟨"1", "KB1", "50", "nodeA", "osx"⟩ : UserRow)) []
        = .ok (([] : List UserRow).filter
              (fun v => decide (userKey v ≠ userKey (⟨"1", "KB1", "50", "nodeA", "osx"⟩ : UserRow)))
            ++ [(⟨"1", "KB1", "50", "nodeA", "osx"⟩ : UserRow)])
      ∧ (([] : List UserRow).filter
            (fun v => decide (userKey v ≠ userKey (⟨"1", "KB1", "50", "nodeA", "osx"⟩ : UserRow)))
          ++ [(⟨"1", "KB1", "50", "nodeA", "osx"⟩ : UserRow)]).filter
          (fun v => decide (userKey v = userKey (⟨"1", "KB1", "50", "nodeA", "osx"⟩ : UserRow)))
          = [(⟨"1", "KB1", "50", "nodeA", "osx"⟩ : UserRow)]
      ∧ (∃ s₁, update_users (userLine (⟨"1", "KB1", "100", "nodeA", "pi"⟩ : UserRow)) [] = .ok s₁
          ∧ update_users (userLine (⟨"1", "KB1", "50", "nodeA", "osx"⟩ : UserRow)) s₁
              = .ok (([] : List UserRow).filter
                    (fun v => decide (userKey v
                      ≠ userKey (⟨"1", "KB1", "50", "nodeA", "osx"⟩ : UserRow)))
                  ++ [(⟨"1", "KB1", "50", "nodeA", "osx"⟩ : UserRow)]))) :=
  ⟨⟨by decide, by decide, by decide⟩,
    update_users_last_write_wins [] ⟨"1", "KB1", "100", "nodeA", "pi"⟩
      ⟨"1", "KB1", "50", "nodeA", "osx"⟩ (by decide) (by decide) (by decide)⟩

/-- C2 counterexample: a messages line with 8 tab-separated fields — not
the expected 7 — does not fail the merge: the row is inserted with the
extra field silently dropped. -/
theorem merge_malformed_line_cex :
    update_messages 500 cexLine8 [] = .ok [msgA]
    ∧ (∀ l ∈ pySplitlines cexLine8, (splitTab l).length = 8) := by
  decide

/-- C2 corrected (amended): a users or files line with a field count other
than 5 (the files feed carries 5 fields, not 6 — the sixth column is the
constant 0) makes the whole merge raise with nothing committed; a
messages line whose id is not hex raises before any insert; a messages
line with fewer than 7 fields raises when the batch reaches it (no
earlier duplicate id having stopped the batch), again with nothing
committed; but messages lines with 7 or more fields never fail — fields
beyond the 7th are dropped. -/
theorem merge_malformed_line_behavior :
    (∀ (feed : String) (s : List UserRow),
        (∃ l ∈ pySplitlines feed, (splitTab l).length ≠ 5) →
        update_users feed s = .error .programmingError
        ∧ commitResult s (update_users feed s) = s)
    ∧ (∀ (feed : String) (s : List FileRow),
        (∃ l ∈ pySplitlines feed, (splitTab l).length ≠ 5) →
        update_files feed s = .error .programmingError
        ∧ commitResult s (update_files feed s) = s)
    ∧ (∀ (maxM : Nat) (feed : String) (s : List Message),
        (∃ l ∈ pySplitlines feed, parseHexNat ((splitTab l).headD "") = none) →
        update_messages maxM feed s = .error .valueError
        ∧ commitResult s (update_messages maxM feed s) = s)
    ∧ (∀ (maxM : Nat) (feed : String) (s : List Message) (good : List String) (bad : String)
          (rest : List String),
        pySplitlines feed = good ++ bad :: rest →
        (∀ l ∈ good, MsgLineOk l) →
        (∀ l ∈ pySplitlines feed, (parseHexNat ((splitTab l).headD "")).isSome) →
        (splitTab bad).length < 7 →
        insertedRun (msgIds s) (good.map lineToMsg) = good.map lineToMsg →
        update_messages maxM feed s = .error .programmingError
        ∧ commitResult s (update_messages maxM feed s) = s)
    ∧ (∀ (maxM : Nat) (feed : String) (s : List Message), MsgFeedOk feed →
        ∃ s', update_messages maxM feed s = .ok s') := by
  refine ⟨?_, ?_, ?_, ?_, ?_⟩
  · intro feed s h
    obtain ⟨l, hl, hlen⟩ := h
    have herr : update_users feed s = .error .programmingError := by
      unfold update_users
      exact execReplaceUsers_error ⟨splitTab l, List.mem_map_of_mem splitTab hl, hlen⟩ s
    refine ⟨herr, ?_⟩
    rw [herr]
    rfl
  · intro feed s h
    obtain ⟨l, hl, hlen⟩ := h
    have herr : update_files feed s = .error .programmingError := by
      unfold update_files
      exact execReplaceFiles_error ⟨splitTab l, List.mem_map_of_mem splitTab hl, hlen⟩ s
    refine ⟨herr, ?_⟩
    rw [herr]
    rfl
  · intro maxM feed s h
    have hparse := parseMsgLines_error_of_badhex h
    have herr : update_messages maxM feed s = .error .valueError := by
      unfold update_messages
      rw [hparse]
    refine ⟨herr, ?_⟩
    rw [herr]
    rfl
  · intro maxM feed s good bad rest hsplit hgood hhex hshort hrun
    have hrows : parseMsgLines (pySplitlines feed) = .ok ((pySplitlines feed).map (fun l =>
        ((parseHexNat ((splitTab l).headD "")).getD 0, ((splitTab l).drop 1).take 6))) :=
      parseMsgLines_hex_ok hhex
    have harity : ∀ r ∈ good.map (fun l =>
        ((parseHexNat ((splitTab l).headD "")).getD 0, ((splitTab l).drop 1).take 6)),
        r.2.length = 6 := by
      intro r hr
      obtain ⟨l, hl, rfl⟩ := List.mem_map.mp hr
      exact msgLineOk_fields_len (hgood l hl)
    have hmapmap : (good.map (fun l =>
        ((parseHexNat ((splitTab l).headD "")).getD 0, ((splitTab l).drop 1).take 6))).map rowToMsg
        = good.map lineToMsg := by
      rw [List.map_map]
      rfl
    have hrun' : insertedRun (msgIds s) ((good.map (fun l =>
        ((parseHexNat ((splitTab l).headD "")).getD 0, ((splitTab l).drop 1).take 6))).map rowToMsg)
        = (good.map (fun l =>
        ((parseHexNat ((splitTab l).headD "")).getD 0, ((splitTab l).drop 1).take 6))).map rowToMsg := by
      rw [hmapmap]
      exact hrun
    have hbadlen : (((splitTab bad).drop 1).take 6).length ≠ 6 := by
      simp only [List.length_take, List.length_drop]
      omega
    have hexec : execInsertMessages s ((pySplitlines feed).map (fun l =>
        ((parseHexNat ((splitTab l).headD "")).getD 0, ((splitTab l).drop 1).take 6)))
        = .error .programmingError := by
      rw [hsplit]
      simp only [List.map_append, List.map_cons]
      rw [execInsertMessages_append_fresh _ harity hrun']
      exact execInsertMessages_cons_bad hbadlen _ _
    have herr : update_messages maxM feed s = .error .programmingError := by
      simp only [update_messages, hrows, hexec]
    refine ⟨herr, ?_⟩
    rw [herr]
    rfl
  · intro maxM feed s h
    exact ⟨_, update_messages_of_feedOk h s⟩

/-- Witness: the malformed-feed theorem applied to a 4-field users line. -/
theorem merge_malformed_line_behavior_witness :
    (∃ l ∈ pySplitlines "KB1\t1\tnodeA\t123", (splitTab l).length ≠ 5)
    ∧ (update_users "KB1\t1\tnodeA\t123" [] = .error .programmingError
      ∧ commitResult [] (update_users "KB1\t1\tnodeA\t123" []) = []) :=
  ⟨by decide, merge_malformed_line_behavior.1 "KB1\t1\tnodeA\t123" [] (by decide)⟩

/-- C1 counterexample: with id 42 already stored, a feed whose first line
duplicates id 42 and whose second line carries the fresh id 7 leaves the
store without id 7 — the duplicate stopped the whole batch, so the
remaining fresh line was not ingested. -/
theorem update_messages_duplicate_not_transparent_cex :
    update_messages 500 cexFeedDup [msgA] = .ok [msgA]
    ∧ (∀ m ∈ [msgA], m.id ≠ 7)
    ∧ (∀ l ∈ pySplitlines cexFeedDup, MsgLineOk l)
    ∧ (pySplitlines cexFeedDup).length = 2 := by
  decide

/-- C1 corrected (amended): a duplicate id is absorbed without an error
and the call still commits and prunes, but it stops the batch: the lines
before the first duplicate are inserted, while the duplicate line and
every line after it — fresh ids included — are skipped. -/
theorem update_messages_duplicate_aborts_batch (maxM : Nat) (feed : String) (s : List Message)
    (good : List String) (bad : String) (rest : List String)
    (hsplit : pySplitlines feed = good ++ bad :: rest)
    (hok : ∀ l ∈ pySplitlines feed, MsgLineOk l)
    (hrun : insertedRun (msgIds s) ((good ++ [bad]).map lineToMsg) = good.map lineToMsg) :
    update_messages maxM feed s = .ok (prune_messages maxM (s ++ good.map lineToMsg)) := by
  rw [update_messages_of_feedOk hok s]
  have hmsgs : feedMsgs feed = good.map lineToMsg ++ lineToMsg bad :: rest.map lineToMsg := by
    unfold feedMsgs
    rw [hsplit]
    simp
  rw [hmsgs, insertLoop_eq_append_run]
  have hsingle : (good ++ [bad]).map lineToMsg = good.map lineToMsg ++ [lineToMsg bad] := by
    simp
  rw [hsingle] at hrun
  rw [insertedRun_stop_extend _ _ _ hrun]

/-- Witness: the batch-abort theorem at a concrete three-line feed whose
middle line duplicates the stored id 42. -/
theorem update_messages_duplicate_aborts_batch_witness :
    (pySplitlines
        "00000007\t1\ta\ta\ta\ta\ta\n0000002a\t1700000000\thello\tKB1XYZ\tnodeA\tpi\tgeneral\n00000009\t2\tb\tb\tb\tb\tb"
        = ["00000007\t1\ta\ta\ta\ta\ta"]
          ++ "0000002a\t1700000000\thello\tKB1XYZ\tnodeA\tpi\tgeneral" :: ["00000009\t2\tb\tb\tb\tb\tb"]
      ∧ (∀ l ∈ (["00000007\t1\ta\ta\ta\ta\ta"] : List String), MsgLineOk l)
      ∧ (∀ l ∈ pySplitlines
          "00000007\t1\ta\ta\ta\ta\ta\n0000002a\t1700000000\thello\tKB1XYZ\tnodeA\tpi\tgeneral\n00000009\t2\tb\tb\tb\tb\tb",
          MsgLineOk l)
      ∧ insertedRun (msgIds [msgA])
          ((["00000007\t1\ta\ta\ta\ta\ta"]
            ++ ["0000002a\t1700000000\thello\tKB1XYZ\tnodeA\tpi\tgeneral"]).map lineToMsg)
          = (["00000007\t1\ta\ta\ta\ta\ta"] : List String).map lineToMsg)
    ∧ update_messages 500
        "00000007\t1\ta\ta\ta\ta\ta\n0000002a\t1700000000\thello\tKB1XYZ\tnodeA\tpi\tgeneral\n00000009\t2\tb\tb\tb\tb\tb"
        [msgA]
        = .ok (prune_messages 500
            ([msgA] ++ (["00000007\t1\ta\ta\ta\ta\ta"] : List String).map lineToMsg)) :=
  ⟨⟨by decide, by decide, by decide, by decide⟩,
    update_messages_duplicate_aborts_batch 500 _ [msgA]
      ["00000007\t1\ta\ta\ta\ta\ta"]
      "0000002a\t1700000000\thello\tKB1XYZ\tnodeA\tpi\tgeneral"
      ["00000009\t2\tb\tb\tb\tb\tb"]
      (by decide) (by decide) (by decide)⟩

/-- C7 counterexample: with the retention limit at 1 and a store holding
ids 7 and 2, merging the single well-formed line with id 7 once leaves
{id 2}, while merging it twice leaves {id 7} — merging the same feed
twice does not equal merging it once on an arbitrary store. -/
theorem update_messages_not_idempotent_cex :
    update_messages 1 cexFeed7 [cexMsg7, cexMsg2] = .ok [cexMsg2]
    ∧ update_messages 1 cexFeed7 [cexMsg2] = .ok [cexMsg7b]
    ∧ ([cexMsg7b] : List Message) ≠ [cexMsg2]
    ∧ (∀ l ∈ pySplitlines cexFeed7, MsgLineOk l) := by
  decide

/-- C7 corrected (amended): Scenario A holds as stated, and merging an
identical well-formed messages feed twice equals merging it once whenever
the starting store has distinct ids and holds at most the retention
maximum (the invariant the pruner maintains); the counterexample's
over-limit store is excluded. -/
theorem update_messages_idempotent_bounded :
    (update_messages 500 scenLineA [] = .ok [msgA]
      ∧ msgA.id = 42 ∧ msgA.epoch = .int 1700000000 ∧ msgA.channel = "general"
      ∧ update_messages 500 scenLineA [msgA] = .ok [msgA])
    ∧ ∀ (maxM : Nat) (S : List Message) (F : String), MsgFeedOk F → (msgIds S).Nodup →
        S.length ≤ maxM →
        ∃ S1, update_messages maxM F S = .ok S1 ∧ update_messages maxM F S1 = .ok S1 := by
  constructor
  · exact ⟨by decide, by decide, by decide, by decide, by decide⟩
  · intro maxM S F hF hnd hle
    refine ⟨prune_messages maxM (insertLoop S (feedMsgs F)),
      update_messages_of_feedOk hF S, ?_⟩
    rw [update_messages_of_feedOk hF _, insertLoop_prune_idem (feedMsgs F) hnd hle]

/-- Witness: the bounded idempotence theorem applied to the scenario-A
feed, an empty store and the default limit 500. -/
theorem update_messages_idempotent_bounded_witness :
    (MsgFeedOk scenLineA ∧ (msgIds ([] : List Message)).Nodup
      ∧ ([] : List Message).length ≤ 500)
    ∧ ∃ S1, update_messages 500 scenLineA [] = .ok S1
        ∧ update_messages 500 scenLineA S1 = .ok S1 :=
  ⟨⟨by decide, by decide, by decide⟩,
    update_messages_idempotent_bounded.2 500 [] scenLineA (by decide) (by decide) (by decide)⟩
